import Mathlib

/-!
# Line-Addressed Editor: shallow embedding

A shallow embedding of `src/planning-with-files/edit_file.py`, a command-line
tool that edits a text file by 1-based line ranges (`show`, `replace`,
`insert`, `append`, `delete`).  Text is modelled as `List Char`; a loaded
document (the result of Python's `readlines`) is a `List (List Char)`.
Python's negative-index slicing, its `str.split('\n')`, and the script's two
ad-hoc terminator-normalisation passes are transliterated exactly.
-/

namespace EditFile

/-- Python `str.split('\n')` on a character list: always returns at least one
(possibly empty) fragment; fragments contain no `'\n'`. -/
def splitNL : List Char → List (List Char)
  | [] => [[]]
  | c :: cs =>
    if c = '\n' then [] :: splitNL cs
    else
      match splitNL cs with
      | [] => [[c]]
      | p :: ps => (c :: p) :: ps

/-- Python `s.endswith('\n')`. -/
def endsWithNL (s : List Char) : Bool :=
  s.getLast? == some '\n'

/-- Python index normalisation for one slice bound on a list of length
`len`: negative indices count from the end (clamped at 0), positive ones
are clamped at `len`. -/
def pyIdx (len : Nat) (i : Int) : Nat :=
  if i < 0 then ((len : Int) + i).toNat else min i.toNat len

/-- Python `l[:n]` for an arbitrary (possibly negative) `n`. -/
def pyTakeTo (n : Int) (l : List α) : List α :=
  l.take (pyIdx l.length n)

/-- Python `l[n:]` for an arbitrary (possibly negative) `n`. -/
def pyDropFrom (n : Int) (l : List α) : List α :=
  l.drop (pyIdx l.length n)

/-- Python `l[a:b]`. -/
def pySlice (a b : Int) (l : List α) : List α :=
  (l.take (pyIdx l.length b)).drop (pyIdx l.length a)

/-- Python `f.readlines()` applied to the file contents: split into lines,
each keeping its trailing `'\n'`; the final line may lack one; an empty
file yields no lines. -/
def pyReadlines (s : List Char) : List (List Char) :=
  let parts := splitNL s
  (parts.dropLast.map (fun l => l ++ ['\n'])) ++
    (if parts.getLastD [] = [] then [] else [parts.getLastD []])

/-- The replace branch's text splitting (edit_file.py lines 43-47):
`new_content.split('\n')`, then, when the text does not end in `'\n'` and the
last fragment is nonempty, every fragment - the last included - gets `'\n'`
appended; otherwise the last (empty) fragment is dropped and the rest get
`'\n'` appended. -/
def replaceSplit (text : List Char) : List (List Char) :=
  let parts := splitNL text
  if endsWithNL text then
    parts.dropLast.map (fun l => l ++ ['\n'])
  else if parts.getLastD [] ≠ [] then
    parts.dropLast.map (fun l => l ++ ['\n']) ++ [parts.getLastD [] ++ ['\n']]
  else
    parts.dropLast.map (fun l => l ++ ['\n'])

/-- The insert branch's text splitting (edit_file.py lines 57-58):
`[l + '\n' for l in parts if l or parts.index(l) < len(parts)-1]`.
Note `parts.index(l)` is the index of the FIRST occurrence of `l`. -/
def insertSplit (text : List Char) : List (List Char) :=
  let parts := splitNL text
  (parts.filter
      (fun l => !l.isEmpty || decide (parts.indexOf l < parts.length - 1))).map
    (fun l => l ++ ['\n'])

/-- `lines[:start] + new_lines + lines[end:]` of the replace branch
(edit_file.py line 48), with `s3`/`e4` the raw integers from the command line
(`start = s3 - 1`). -/
def replaceLines (lines : List (List Char)) (s3 e4 : Int) (text : List Char) :
    List (List Char) :=
  pyTakeTo (s3 - 1) lines ++ replaceSplit text ++ pyDropFrom e4 lines

/-- `lines[:after_line] + new_lines + lines[after_line:]` of the insert branch
(edit_file.py line 59). -/
def insertLines (lines : List (List Char)) (after : Int) (text : List Char) :
    List (List Char) :=
  pyTakeTo after lines ++ insertSplit text ++ pyDropFrom after lines

/-- `lines[:start] + lines[end:]` of the delete branch (edit_file.py line 75). -/
def deleteLines (lines : List (List Char)) (s3 e4 : Int) : List (List Char) :=
  pyTakeTo (s3 - 1) lines ++ pyDropFrom e4 lines

/-- Interleave the fragments of a split with `'\n'`: the inverse of
`splitNL`. -/
def joinSep : List (List Char) → List Char
  | [] => []
  | [l] => l
  | l :: ls => l ++ '\n' :: joinSep ls

/-- A line exactly as `readlines` produces it for every line but the last:
nonempty payload, no interior newline, terminated by `'\n'`. -/
def properLine (l : List Char) : Bool :=
  !l.dropLast.isEmpty && !l.dropLast.contains '\n' && l.getLastD ' ' == '\n'

/-! ## The command-line driver `main` -/

/-- Outcome of one invocation, under the assumption that file I/O succeeds:
the file's new contents, everything printed to stdout, and the process exit
code (1 both for the explicit `sys.exit(1)` and for an uncaught exception
such as `int()` failing). -/
structure RunResult where
  file : List Char
  out : List Char
  exitCode : Nat
deriving DecidableEq, Repr

/-- Python `int(s)` on a command-line argument, modelled for an optional
leading minus sign followed by decimal digits (surrounding whitespace, a
`+` sign and `_` separators are not modelled); `none` stands for the
`ValueError` the real `int()` raises. -/
def pyInt (s : String) : Option Int :=
  match s.toList with
  | [] => none
  | '-' :: ds =>
    if ds ≠ [] ∧ ds.all Char.isDigit then
      some (-(ds.foldl (fun a c => 10 * a + (c.toNat - 48)) 0 : Nat))
    else none
  | ds =>
    if ds.all Char.isDigit then
      some ((ds.foldl (fun a c => 10 * a + (c.toNat - 48)) 0 : Nat))
    else none

/-- Decimal rendering of an integer, as Python's `str` would produce it. -/
def intStr (i : Int) : List Char :=
  if i < 0 then '-' :: Nat.toDigits 10 i.natAbs else Nat.toDigits 10 i.toNat

/-- Python `f"{i:4d}"`: right-aligned in a field of width 4. -/
def fmtI4 (i : Int) : List Char :=
  List.replicate (4 - (intStr i).length) ' ' ++ intStr i

/-- The module docstring printed by the usage branch. -/
def usageDoc : List Char :=
  ("\nA tool to edit files by line number ranges or pattern matching.\nUsage:\n  python edit_file.py <file> replace <start_line> <end_line> <new_content>\n  python edit_file.py <file> insert <after_line> <new_content>\n  python edit_file.py <file> append <new_content>\n  python edit_file.py <file> delete <start_line> <end_line>\n  python edit_file.py <file> show <start_line> <end_line>\n").toList

/-- `print(__doc__)` output (a trailing newline from `print`). -/
def usageOut : List Char := usageDoc ++ ['\n']

/-- Output of the show branch: each line of `lines[start:end]` prefixed by
`f"{i:4d}: "` with `i` counting from `start + 1`. -/
def showOut (start e : Int) (lines : List (List Char)) : List Char :=
  List.flatten ((pySlice start e lines).enum.map
    (fun p => fmtI4 (start + 1 + (p.1 : Int)) ++ ':' :: ' ' :: p.2))

/-- `f"Replaced lines {start+1}-{end} with {n} lines"` plus `print`'s newline
(`start + 1` equals the raw first argument `s3`). -/
def replaceMsg (s3 e4 : Int) (n : Nat) : List Char :=
  "Replaced lines ".toList ++ intStr s3 ++ '-' :: intStr e4 ++
    " with ".toList ++ Nat.toDigits 10 n ++ " lines".toList ++ ['\n']

/-- `f"Inserted {n} lines after line {after_line}"` plus `print`'s newline. -/
def insertMsg (n : Nat) (after : Int) : List Char :=
  "Inserted ".toList ++ Nat.toDigits 10 n ++ " lines after line ".toList ++
    intStr after ++ ['\n']

/-- `f"Appended content to {filepath}"` plus `print`'s newline. -/
def appendMsg (filepath : String) : List Char :=
  "Appended content to ".toList ++ filepath.toList ++ ['\n']

/-- `f"Deleted lines {start+1}-{end}"` plus `print`'s newline. -/
def deleteMsg (s3 e4 : Int) : List Char :=
  "Deleted lines ".toList ++ intStr s3 ++ '-' :: intStr e4 ++ ['\n']

/-- The `show` branch (edit_file.py lines 30-36): `start` defaults to line 1,
`end` to the document length; the file is only read. -/
def runShow (argv : List String) (content : List Char) : RunResult :=
  let lines := pyReadlines content
  match (if 3 < argv.length then (pyInt (argv.getD 3 "")).map (· - 1) else some 0) with
  | none => ⟨content, [], 1⟩
  | some start =>
    match (if 4 < argv.length then pyInt (argv.getD 4 "") else some (lines.length : Int)) with
    | none => ⟨content, [], 1⟩
    | some e => ⟨content, showOut start e lines, 0⟩

/-- The `replace` branch (edit_file.py lines 38-51): parse both bounds, take
the text from `argv[5]` or stdin, splice, rewrite the whole file. -/
def runReplaceCmd (argv : List String) (stdin content : List Char) : RunResult :=
  match pyInt (argv.getD 3 "") with
  | none => ⟨content, [], 1⟩
  | some s3 =>
    match pyInt (argv.getD 4 "") with
    | none => ⟨content, [], 1⟩
    | some e4 =>
      let text := if 5 < argv.length then (argv.getD 5 "").toList else stdin
      let lines := pyReadlines content
      ⟨List.flatten (replaceLines lines s3 e4 text),
        replaceMsg s3 e4 (replaceSplit text).length, 0⟩

/-- The `insert` branch (edit_file.py lines 53-62). -/
def runInsertCmd (argv : List String) (stdin content : List Char) : RunResult :=
  match pyInt (argv.getD 3 "") with
  | none => ⟨content, [], 1⟩
  | some after =>
    let text := if 4 < argv.length then (argv.getD 4 "").toList else stdin
    let lines := pyReadlines content
    ⟨List.flatten (insertLines lines after text),
      insertMsg (insertSplit text).length after, 0⟩

/-- The `append` branch (edit_file.py lines 64-68): the raw text is written
verbatim in append mode; nothing is parsed or re-read. -/
def runAppendCmd (argv : List String) (stdin content : List Char)
    (filepath : String) : RunResult :=
  let text := if 3 < argv.length then (argv.getD 3 "").toList else stdin
  ⟨content ++ text, appendMsg filepath, 0⟩

/-- The `delete` branch (edit_file.py lines 70-78). -/
def runDeleteCmd (argv : List String) (content : List Char) : RunResult :=
  match pyInt (argv.getD 3 "") with
  | none => ⟨content, [], 1⟩
  | some s3 =>
    match pyInt (argv.getD 4 "") with
    | none => ⟨content, [], 1⟩
    | some e4 =>
      let lines := pyReadlines content
      ⟨List.flatten (deleteLines lines s3 e4), deleteMsg s3 e4, 0⟩

/-- The whole of `main()`: `argv` is `sys.argv` (program name included),
`stdin` the text available on standard input, `content` the target file's
current bytes.  When fewer than three `argv` entries are present the
usage text is printed and the process exits 1; an unrecognized action
falls off the end of `main` (exit 0, no output, no file access). -/
def runMain (argv : List String) (stdin content : List Char) : RunResult :=
  if argv.length < 3 then ⟨content, usageOut, 1⟩
  else
    let filepath := argv.getD 1 ""
    let action := argv.getD 2 ""
    if action = "show" then runShow argv content
    else if action = "replace" then runReplaceCmd argv stdin content
    else if action = "insert" then runInsertCmd argv stdin content
    else if action = "append" then runAppendCmd argv stdin content filepath
    else if action = "delete" then runDeleteCmd argv content
    else ⟨content, [], 0⟩

/-! ## Structure of `splitNL` -/

theorem splitNL_ne_nil (s : List Char) : splitNL s ≠ [] := by
  cases s with
  | nil => simp [splitNL]
  | cons c cs =>
    simp only [splitNL]
    split
    · simp
    · split <;> simp

theorem joinSep_cons (l : List Char) (ls : List (List Char)) (h : ls ≠ []) :
    joinSep (l :: ls) = l ++ '\n' :: joinSep ls := by
  cases ls with
  | nil => exact absurd rfl h
  | cons a as => rfl

theorem joinSep_splitNL (s : List Char) : joinSep (splitNL s) = s := by
  induction s with
  | nil => rfl
  | cons c cs ih =>
    simp only [splitNL]
    split
    · rename_i hc
      rw [joinSep_cons _ _ (splitNL_ne_nil cs), ih, hc]
      rfl
    · rename_i hc
      cases hcs : splitNL cs with
      | nil => exact absurd hcs (splitNL_ne_nil cs)
      | cons p ps =>
        rw [hcs] at ih
        cases ps with
        | nil =>
          simp only [joinSep] at ih ⊢
          rw [ih]
        | cons q qs =>
          rw [joinSep_cons p (q :: qs) (by simp)] at ih
          rw [joinSep_cons (c :: p) (q :: qs) (by simp), List.cons_append, ih]

theorem splitNL_eq_singleton {s p : List Char} (h : splitNL s = [p]) :
    s = p ∧ '\n' ∉ s := by
  induction s generalizing p with
  | nil =>
    simp only [splitNL] at h
    cases h
    simp
  | cons c cs ih =>
    simp only [splitNL] at h
    split at h
    · injection h with h1 h2
      exact absurd h2 (splitNL_ne_nil cs)
    · rename_i hc
      cases hcs : splitNL cs with
      | nil => exact absurd hcs (splitNL_ne_nil cs)
      | cons q qs =>
        rw [hcs] at h
        cases h
        obtain ⟨h1, h2⟩ := ih hcs
        subst h1
        refine ⟨rfl, ?_⟩
        simp only [List.mem_cons, not_or]
        exact ⟨fun hh => hc hh.symm, h2⟩

theorem endsWithNL_iff (s : List Char) :
    endsWithNL s = true ↔ s.getLast? = some '\n' := by
  simp [endsWithNL]

theorem endsWithNL_cons_cons (a b : Char) (l : List Char) :
    endsWithNL (a :: b :: l) = endsWithNL (b :: l) := by
  simp [endsWithNL, List.getLast?_cons_cons]

theorem endsWithNL_cons_of_ne_nil (c : Char) {cs : List Char} (h : cs ≠ []) :
    endsWithNL (c :: cs) = endsWithNL cs := by
  cases cs with
  | nil => exact absurd rfl h
  | cons b l => exact endsWithNL_cons_cons c b l

theorem not_endsWithNL_of_not_mem {s : List Char} (h : '\n' ∉ s) :
    endsWithNL s = false := by
  cases he : endsWithNL s
  · rfl
  · rw [endsWithNL_iff] at he
    exact absurd (List.mem_of_getLast?_eq_some he) h

theorem splitNL_getLast?_eq_nil_iff (s : List Char) :
    (splitNL s).getLast? = some [] ↔ (s = [] ∨ endsWithNL s = true) := by
  induction s with
  | nil => simp [splitNL]
  | cons c cs ih =>
    simp only [splitNL]
    split
    · rename_i hc
      subst hc
      cases hcs : splitNL cs with
      | nil => exact absurd hcs (splitNL_ne_nil cs)
      | cons p ps =>
        have hg : (([] : List Char) :: splitNL cs).getLast? =
            (splitNL cs).getLast? := by
          rw [hcs]
          exact List.getLast?_cons_cons
        rw [← hcs, hg, ih]
        cases cs with
        | nil => simp [endsWithNL]
        | cons b l =>
          rw [endsWithNL_cons_cons]
          simp
    · rename_i hc
      cases hcs : splitNL cs with
      | nil => exact absurd hcs (splitNL_ne_nil cs)
      | cons q qs =>
        cases qs with
        | nil =>
          obtain ⟨h1, h2⟩ := splitNL_eq_singleton hcs
          have hend : endsWithNL (c :: cs) = false := by
            refine not_endsWithNL_of_not_mem ?_
            simp only [List.mem_cons, not_or]
            exact ⟨fun h => hc h.symm, h2⟩
          simp [hcs, hend]
        | cons q2 qs2 =>
          have hcs_ne : cs ≠ [] := by
            intro h
            rw [h] at hcs
            simp [splitNL] at hcs
          have hg : ((c :: q) :: q2 :: qs2).getLast? =
              (splitNL cs).getLast? := by
            rw [hcs, List.getLast?_cons_cons, List.getLast?_cons_cons]
          rw [hg, ih, endsWithNL_cons_of_ne_nil c hcs_ne]
          simp [hcs_ne]

theorem dropLast_append_getLastD {α : Type} (l : List α) (d : α) (h : l ≠ []) :
    l.dropLast ++ [l.getLastD d] = l := by
  have h1 := List.dropLast_append_getLast h
  rw [List.getLastD_eq_getLast?, List.getLast?_eq_getLast l h]
  exact h1

theorem flatten_map_addNL (ls : List (List Char)) (h : ls ≠ []) :
    List.flatten (ls.map (fun l => l ++ ['\n'])) = joinSep ls ++ ['\n'] := by
  induction ls with
  | nil => exact absurd rfl h
  | cons a as ih =>
    cases as with
    | nil => simp [joinSep]
    | cons b bs =>
      rw [List.map_cons, List.flatten_cons, ih (by simp),
        joinSep_cons a (b :: bs) (by simp)]
      simp

theorem joinSep_singleton (l : List Char) : joinSep [l] = l := rfl

theorem joinSep_concat (ls : List (List Char)) (x : List Char) (h : ls ≠ []) :
    joinSep (ls ++ [x]) = joinSep ls ++ '\n' :: x := by
  induction ls with
  | nil => exact absurd rfl h
  | cons a as ih =>
    cases as with
    | nil =>
      rw [List.cons_append, List.nil_append, joinSep_cons a [x] (by simp),
        joinSep_singleton, joinSep_singleton]
    | cons b bs =>
      rw [List.cons_append, joinSep_cons a ((b :: bs) ++ [x]) (by simp),
        ih (by simp), joinSep_cons a (b :: bs) (by simp)]
      simp

theorem splitNL_getLastD_ne_nil {t : List Char} (he : endsWithNL t = false)
    (ht : t ≠ []) : (splitNL t).getLastD [] ≠ [] := by
  intro hlast
  have h1 : (splitNL t).getLast? = some [] := by
    rw [List.getLast?_eq_getLast _ (splitNL_ne_nil t)]
    rw [List.getLastD_eq_getLast?, List.getLast?_eq_getLast _ (splitNL_ne_nil t)] at hlast
    simp at hlast
    rw [hlast]
  rcases (splitNL_getLast?_eq_nil_iff t).mp h1 with h | h
  · exact ht h
  · rw [he] at h
    cases h

theorem splitNL_getLastD_of_endsWithNL {t : List Char}
    (he : endsWithNL t = true) : (splitNL t).getLastD [] = [] := by
  have h1 : (splitNL t).getLast? = some [] :=
    (splitNL_getLast?_eq_nil_iff t).mpr (Or.inr he)
  rw [List.getLastD_eq_getLast?, h1]
  rfl

/-- Every line the replace-branch splitter produces ends in `'\n'` — the
final unterminated fragment included. -/
theorem replaceSplit_terminated (t : List Char) :
    ∀ l ∈ replaceSplit t, l.getLast? = some '\n' := by
  intro l hl
  simp only [replaceSplit] at hl
  split at hl
  · obtain ⟨x, hx, rfl⟩ := List.mem_map.mp hl
    exact List.getLast?_concat x
  · split at hl
    · rcases List.mem_append.mp hl with hm | hm
      · obtain ⟨x, hx, rfl⟩ := List.mem_map.mp hm
        exact List.getLast?_concat x
      · rw [List.mem_singleton.mp hm]
        exact List.getLast?_concat _
    · obtain ⟨x, hx, rfl⟩ := List.mem_map.mp hl
      exact List.getLast?_concat x

/-- Concatenating the replace-branch split reproduces the supplied text,
with one `'\n'` appended when a nonempty text did not end in one. -/
theorem replaceSplit_flatten (t : List Char) :
    List.flatten (replaceSplit t) =
      if endsWithNL t then t else if t = [] then [] else t ++ ['\n'] := by
  by_cases ht : t = []
  · subst ht
    decide
  · have hne := splitNL_ne_nil t
    have hparts : (splitNL t).dropLast ++ [(splitNL t).getLastD []] = splitNL t :=
      dropLast_append_getLastD _ [] hne
    have hjoin : joinSep (splitNL t) = t := joinSep_splitNL t
    by_cases he : endsWithNL t = true
    · have hlast : (splitNL t).getLastD [] = [] :=
        splitNL_getLastD_of_endsWithNL he
      have hinit : (splitNL t).dropLast ≠ [] := by
        intro h0
        rw [h0, hlast, List.nil_append] at hparts
        obtain ⟨h1, h2⟩ := splitNL_eq_singleton hparts.symm
        exact ht h1
      rw [hlast] at hparts
      have ht2 : t = joinSep (splitNL t).dropLast ++ '\n' :: [] := by
        conv_lhs => rw [← hjoin, ← hparts]
        rw [joinSep_concat _ _ hinit]
      rw [replaceSplit, if_pos he, if_pos he, flatten_map_addNL _ hinit]
      exact ht2.symm
    · rw [Bool.not_eq_true] at he
      have hc1 : ¬ (endsWithNL t = true) := by simp [he]
      have hlast : (splitNL t).getLastD [] ≠ [] := splitNL_getLastD_ne_nil he ht
      have ht2 : t = joinSep ((splitNL t).dropLast ++ [(splitNL t).getLastD []]) := by
        conv_lhs => rw [← hjoin, ← hparts]
      rw [replaceSplit, if_neg hc1, if_pos hlast, if_neg hc1, if_neg ht,
        List.flatten_append]
      by_cases hinit : (splitNL t).dropLast = []
      · rw [hinit, List.map_nil, List.flatten_nil, List.nil_append]
        rw [hinit, List.nil_append, joinSep_singleton] at ht2
        rw [← ht2]
        simp
      · rw [flatten_map_addNL _ hinit]
        rw [joinSep_concat _ _ hinit] at ht2
        conv_rhs => rw [ht2]
        simp

/-! ## Claim C1: terminator policy of the Replace/Insert text splitting -/

/-- C1 counterexample: splitting `"a\nb\nc"` (no trailing terminator) does
NOT leave the third line unterminated — both the replace-branch and the
insert-branch splitters append `'\n'` to the final fragment, so the third
produced line ends in a newline and the concatenation of the produced lines
is `"a\nb\nc\n"`, not the supplied text. -/
theorem C1_counterexample :
    ((replaceSplit ("a\nb\nc".toList)).getD 2 []).getLast? = some '\n' ∧
    ((insertSplit ("a\nb\nc".toList)).getD 2 []).getLast? = some '\n' ∧
    List.flatten (replaceSplit ("a\nb\nc".toList)) ≠ "a\nb\nc".toList := by
  decide

/-- C1 (amended): splitting `"a\nb\nc"` yields exactly three lines ALL of
which end in a newline (the final unterminated fragment also receives a
terminator), and splitting `"a\nb\nc\n"` yields exactly three terminated
lines with no fourth empty line — for the replace-branch and insert-branch
splitters alike.  In general every line the replace-branch splitter produces
is terminated, and the concatenation of its lines reproduces the supplied
text except that a nonempty text lacking a final terminator gains one. -/
theorem C1_terminator_policy :
    (replaceSplit ("a\nb\nc".toList) = ["a\n".toList, "b\n".toList, "c\n".toList] ∧
     insertSplit ("a\nb\nc".toList) = ["a\n".toList, "b\n".toList, "c\n".toList]) ∧
    (replaceSplit ("a\nb\nc\n".toList) = ["a\n".toList, "b\n".toList, "c\n".toList] ∧
     insertSplit ("a\nb\nc\n".toList) = ["a\n".toList, "b\n".toList, "c\n".toList]) ∧
    (∀ t : List Char, ∀ l ∈ replaceSplit t, l.getLast? = some '\n') ∧
    (∀ t : List Char, List.flatten (replaceSplit t) =
      if endsWithNL t then t else if t = [] then [] else t ++ ['\n']) :=
  ⟨⟨by decide, by decide⟩, ⟨by decide, by decide⟩,
    fun t => replaceSplit_terminated t, fun t => replaceSplit_flatten t⟩

/-- C1 witness: the general terminated-lines clause of
`C1_terminator_policy`, instantiated at the concrete text `"a\nb\nc"` and
its first produced line. -/
theorem C1_witness :
    "a\n".toList ∈ replaceSplit ("a\nb\nc".toList) ∧
    ("a\n".toList).getLast? = some '\n' :=
  ⟨by decide,
    C1_terminator_policy.2.2.1 ("a\nb\nc".toList) ("a\n".toList) (by decide)⟩

/-! ## Python slicing on well-formed (nonnegative, in-range) indices -/

theorem pyIdx_ofNat (len n : Nat) : pyIdx len (n : Int) = min n len := by
  simp [pyIdx]

theorem pyTakeTo_ofNat (l : List α) (n : Nat) : pyTakeTo (n : Int) l = l.take n := by
  rw [pyTakeTo, pyIdx_ofNat]
  rcases Nat.le_total n l.length with h | h
  · rw [min_eq_left h]
  · rw [min_eq_right h, List.take_length, List.take_of_length_le h]

theorem pyDropFrom_ofNat (l : List α) (n : Nat) : pyDropFrom (n : Int) l = l.drop n := by
  rw [pyDropFrom, pyIdx_ofNat]
  rcases Nat.le_total n l.length with h | h
  · rw [min_eq_left h]
  · rw [min_eq_right h, List.drop_of_length_le (le_refl _),
      List.drop_of_length_le h]

theorem replaceLines_natCast (lines : List (List Char)) (s e : Nat)
    (text : List Char) (h1 : 1 ≤ s) :
    replaceLines lines (s : Int) (e : Int) text =
      lines.take (s - 1) ++ (replaceSplit text ++ lines.drop e) := by
  have hc : ((s : Int) - 1) = ((s - 1 : Nat) : Int) := by omega
  rw [replaceLines, hc, pyTakeTo_ofNat, pyDropFrom_ofNat, List.append_assoc]

theorem insertLines_natCast (lines : List (List Char)) (a : Nat)
    (text : List Char) :
    insertLines lines (a : Int) text =
      lines.take a ++ (insertSplit text ++ lines.drop a) := by
  rw [insertLines, pyTakeTo_ofNat, pyDropFrom_ofNat, List.append_assoc]

theorem deleteLines_natCast (lines : List (List Char)) (s e : Nat)
    (h1 : 1 ≤ s) :
    deleteLines lines (s : Int) (e : Int) =
      lines.take (s - 1) ++ lines.drop e := by
  have hc : ((s : Int) - 1) = ((s - 1 : Nat) : Int) := by omega
  rw [deleteLines, hc, pyTakeTo_ofNat, pyDropFrom_ofNat]

/-! ## Frame lemmas for splicing -/

theorem splice_getElem?_lt {α : Type} (l mid : List α) (a b i : Nat)
    (ha : a ≤ l.length) (hi : i < a) :
    (l.take a ++ (mid ++ l.drop b))[i]? = l[i]? := by
  rw [List.getElem?_append_left (by rw [List.length_take]; omega),
    List.getElem?_take]
  simp [hi]

theorem splice_getElem?_ge {α : Type} (l mid : List α) (a b k : Nat)
    (ha : a ≤ l.length) :
    (l.take a ++ (mid ++ l.drop b))[a + mid.length + k]? = l[b + k]? := by
  have hlen : (l.take a).length = a := List.length_take_of_le ha
  rw [List.getElem?_append_right (by omega), hlen]
  have h2 : a + mid.length + k - a = mid.length + k := by omega
  rw [h2, List.getElem?_append_right (by omega)]
  have h3 : mid.length + k - mid.length = k := by omega
  rw [h3, List.getElem?_drop]

/-! ## Claim C2: untouched lines survive every edit byte-identically -/

/-- C2: for Replace/Delete on range `[s,e]` every document line strictly
before `s` keeps its position and content, and every line strictly after `e`
reappears, byte-identical, shifted to sit right after the spliced-in block;
for Insert after line `after`, the first `after` lines stay in place and the
remaining lines reappear shifted by the number of inserted lines. -/
theorem C2_frame (doc : List (List Char)) (s e after : Nat) (text : List Char)
    (h1 : 1 ≤ s) (h2 : s ≤ e + 1) (h3 : e ≤ doc.length)
    (h4 : after ≤ doc.length) :
    (∀ i : Nat, 1 ≤ i → i < s →
      (replaceLines doc (s : Int) (e : Int) text)[i - 1]? = doc[i - 1]? ∧
      (deleteLines doc (s : Int) (e : Int))[i - 1]? = doc[i - 1]?) ∧
    (∀ i : Nat, e < i → i ≤ doc.length →
      (replaceLines doc (s : Int) (e : Int) text)[s - 1 +
          (replaceSplit text).length + (i - 1 - e)]? = doc[i - 1]? ∧
      (deleteLines doc (s : Int) (e : Int))[s - 1 + (i - 1 - e)]? =
        doc[i - 1]?) ∧
    (∀ i : Nat, i < after →
      (insertLines doc (after : Int) text)[i]? = doc[i]?) ∧
    (∀ i : Nat, after ≤ i → i < doc.length →
      (insertLines doc (after : Int) text)[after +
          (insertSplit text).length + (i - after)]? = doc[i]?) := by
  have hs : s - 1 ≤ doc.length := by omega
  have hdel : deleteLines doc (s : Int) (e : Int) =
      doc.take (s - 1) ++ ([] ++ doc.drop e) := by
    rw [deleteLines_natCast doc s e h1, List.nil_append]
  refine ⟨fun i hi1 hi2 => ?_, fun i hi1 hi2 => ?_, fun i hi => ?_,
    fun i hi1 hi2 => ?_⟩
  · rw [replaceLines_natCast doc s e text h1, hdel]
    constructor <;> exact splice_getElem?_lt doc _ (s - 1) e (i - 1) hs (by omega)
  · constructor
    · rw [replaceLines_natCast doc s e text h1]
      have h5 := splice_getElem?_ge doc (replaceSplit text) (s - 1) e
        (i - 1 - e) hs
      rw [h5]
      congr 1
      omega
    · rw [hdel]
      have h5 := splice_getElem?_ge doc [] (s - 1) e (i - 1 - e) hs
      rw [List.length_nil, Nat.add_zero] at h5
      rw [h5]
      congr 1
      omega
  · rw [insertLines_natCast doc after text]
    exact splice_getElem?_lt doc _ after after i h4 hi
  · rw [insertLines_natCast doc after text]
    have h5 := splice_getElem?_ge doc (insertSplit text) after after
      (i - after) h4
    rw [h5]
    congr 1
    omega

/-- C2 witness: the frame theorem applied to the concrete three-line
document with `replace 2 2`, checking that line 1 survives in place. -/
theorem C2_witness :
    (replaceLines ["a\n".toList, "b\n".toList, "c\n".toList]
      (2 : Int) (2 : Int) ("X\n".toList))[0]? =
      (["a\n".toList, "b\n".toList, "c\n".toList])[0]? :=
  ((C2_frame ["a\n".toList, "b\n".toList, "c\n".toList] 2 2 1 ("X\n".toList)
      (by decide) (by decide) (by decide) (by decide)).1 1
    (by decide) (by decide)).1

/-! ## Claim C3: replace [2,4] of a 6-line document by a 2-line block -/

/-- C3 counterexample: on the concrete 6-line document and the 2-line block
from `"X\nY\n"`, the new lines 3..5 are NOT the original lines 5..6 (new
line 3 is the second replacement line, not original line 5): the result's
slice `[3,5]` differs from the original slice `[5,6]`. -/
theorem C3_counterexample :
    pySlice 2 5 (replaceLines
        ["1\n".toList, "2\n".toList, "3\n".toList, "4\n".toList,
          "5\n".toList, "6\n".toList] (2 : Int) (4 : Int) ("X\nY\n".toList)) ≠
      pySlice 4 6
        ["1\n".toList, "2\n".toList, "3\n".toList, "4\n".toList,
          "5\n".toList, "6\n".toList] := by
  decide

/-- C3 (amended): replacing lines `[2,4]` of a 6-line document with a 2-line
block yields exactly `6 - 3 + 2 = 5` lines; line 1 equals original line 1,
lines 2..3 are the replacement block, and lines 4..5 equal original
lines 5..6. -/
theorem C3_replace_count (doc : List (List Char)) (text : List Char)
    (h6 : doc.length = 6) (hk : (replaceSplit text).length = 2) :
    (replaceLines doc (2 : Int) (4 : Int) text).length = 5 ∧
    (replaceLines doc (2 : Int) (4 : Int) text)[0]? = doc[0]? ∧
    (replaceLines doc (2 : Int) (4 : Int) text)[1]? = (replaceSplit text)[0]? ∧
    (replaceLines doc (2 : Int) (4 : Int) text)[2]? = (replaceSplit text)[1]? ∧
    (replaceLines doc (2 : Int) (4 : Int) text)[3]? = doc[4]? ∧
    (replaceLines doc (2 : Int) (4 : Int) text)[4]? = doc[5]? := by
  have hrw : replaceLines doc (2 : Int) (4 : Int) text =
      doc.take 1 ++ (replaceSplit text ++ doc.drop 4) :=
    replaceLines_natCast doc 2 4 text (by omega)
  have hlen1 : (doc.take 1).length = 1 := List.length_take_of_le (by omega)
  have hlen4 : (doc.drop 4).length = 2 := by rw [List.length_drop, h6]
  refine ⟨?_, ?_, ?_, ?_, ?_, ?_⟩
  · rw [hrw]
    simp [hlen1, hk, hlen4]
  · rw [hrw]
    exact splice_getElem?_lt doc _ 1 4 0 (by omega) (by omega)
  · rw [hrw, List.getElem?_append_right (by omega), hlen1,
      List.getElem?_append_left (by omega)]
  · rw [hrw, List.getElem?_append_right (by omega), hlen1,
      List.getElem?_append_left (by omega)]
  · have h5 := splice_getElem?_ge doc (replaceSplit text) 1 4 0 (by omega)
    rw [hk] at h5
    rw [hrw]
    exact h5
  · have h5 := splice_getElem?_ge doc (replaceSplit text) 1 4 1 (by omega)
    rw [hk] at h5
    rw [hrw]
    exact h5

/-- C3 witness: the amended replace-count contract instantiated on the
concrete 6-line document with the 2-line block from `"X\nY\n"`. -/
theorem C3_witness :
    (replaceLines
        ["1\n".toList, "2\n".toList, "3\n".toList, "4\n".toList,
          "5\n".toList, "6\n".toList] (2 : Int) (4 : Int)
        ("X\nY\n".toList)).length = 5 :=
  (C3_replace_count
      ["1\n".toList, "2\n".toList, "3\n".toList, "4\n".toList,
        "5\n".toList, "6\n".toList] ("X\nY\n".toList)
      (by decide) (by decide)).1

/-! ## Reconstructing a proper line block through the insert splitter -/

theorem splitNL_append_nl (c r : List Char) (h : '\n' ∉ c) :
    splitNL (c ++ '\n' :: r) = c :: splitNL r := by
  induction c with
  | nil => simp [splitNL]
  | cons a as ih =>
    have ha : ¬ a = '\n' := fun h0 => h (h0 ▸ List.mem_cons_self a as)
    have has : '\n' ∉ as := fun h0 => h (List.mem_cons_of_mem a h0)
    rw [List.cons_append]
    simp only [splitNL, if_neg ha, ih has]

theorem properLine_spec {l : List Char} (h : properLine l = true) :
    l.dropLast ≠ [] ∧ '\n' ∉ l.dropLast ∧ l = l.dropLast ++ ['\n'] := by
  simp only [properLine, Bool.and_eq_true, Bool.not_eq_true', beq_iff_eq] at h
  obtain ⟨⟨h1, h2⟩, h3⟩ := h
  have hne : l.dropLast ≠ [] := by
    intro h0
    rw [h0] at h1
    simp at h1
  have hnm : '\n' ∉ l.dropLast := by simpa [List.contains] using h2
  have hl : l ≠ [] := by
    intro h0
    rw [h0] at hne
    exact hne rfl
  refine ⟨hne, hnm, ?_⟩
  conv_lhs => rw [← dropLast_append_getLastD l ' ' hl]
  rw [h3]

theorem splitNL_flatten_proper (ls : List (List Char))
    (h : ∀ l ∈ ls, properLine l = true) :
    splitNL (List.flatten ls) = ls.map List.dropLast ++ [[]] := by
  induction ls with
  | nil => rfl
  | cons a as ih =>
    obtain ⟨hne, hnm, heq⟩ := properLine_spec (h a (List.mem_cons_self a as))
    rw [List.flatten_cons]
    conv_lhs => rw [heq]
    rw [List.append_assoc, List.singleton_append,
      splitNL_append_nl _ _ hnm, ih (fun l hl => h l (List.mem_cons_of_mem a hl)),
      List.map_cons, List.cons_append]

theorem indexOf_nil_append (cs : List (List Char)) (h : ∀ c ∈ cs, c ≠ []) :
    (cs ++ [[]]).indexOf ([] : List Char) = cs.length := by
  induction cs with
  | nil => decide
  | cons a as ih =>
    rw [List.cons_append, List.indexOf_cons]
    have ha : (a == ([] : List Char)) = false := by
      simp only [beq_eq_false_iff_ne, ne_eq]
      exact h a (List.mem_cons_self a as)
    rw [ha, cond_false, ih (fun c hc => h c (List.mem_cons_of_mem a hc))]
    simp

theorem map_dropLast_addNL (ls : List (List Char))
    (h : ∀ l ∈ ls, properLine l = true) :
    (ls.map List.dropLast).map (fun l => l ++ ['\n']) = ls := by
  induction ls with
  | nil => rfl
  | cons a as ih =>
    obtain ⟨_, _, heq⟩ := properLine_spec (h a (List.mem_cons_self a as))
    rw [List.map_cons, List.map_cons,
      ih (fun l hl => h l (List.mem_cons_of_mem a hl)), ← heq]

/-- Key inverse law: the insert-branch splitter applied to the
concatenation of a block of proper lines reproduces the block. -/
theorem insertSplit_flatten_proper (ls : List (List Char))
    (h : ∀ l ∈ ls, properLine l = true) :
    insertSplit (List.flatten ls) = ls := by
  have hsplit := splitNL_flatten_proper ls h
  have hcs : ∀ c ∈ ls.map List.dropLast, c ≠ [] := by
    intro c hc
    obtain ⟨l, hl, rfl⟩ := List.mem_map.mp hc
    exact (properLine_spec (h l hl)).1
  have hidx : ((ls.map List.dropLast ++ [[]]).indexOf ([] : List Char)) =
      (ls.map List.dropLast).length := indexOf_nil_append _ hcs
  rw [insertSplit, hsplit]
  have hfilter :
      (ls.map List.dropLast ++ [[]]).filter
        (fun l => !l.isEmpty ||
          decide ((ls.map List.dropLast ++ [[]]).indexOf l <
            (ls.map List.dropLast ++ [[]]).length - 1)) =
      ls.map List.dropLast := by
    rw [List.filter_append]
    have h1 : (ls.map List.dropLast).filter
        (fun l => !l.isEmpty ||
          decide ((ls.map List.dropLast ++ [[]]).indexOf l <
            (ls.map List.dropLast ++ [[]]).length - 1)) =
        ls.map List.dropLast := by
      apply List.filter_eq_self.mpr
      intro c hc
      have hc0 : c.isEmpty = false := by
        cases c with
        | nil => exact absurd rfl (hcs [] hc)
        | cons x xs => rfl
      rw [hc0]
      rfl
    have h2 : ([([] : List Char)]).filter
        (fun l => !l.isEmpty ||
          decide ((ls.map List.dropLast ++ [[]]).indexOf l <
            (ls.map List.dropLast ++ [[]]).length - 1)) = [] := by
      rw [List.filter_cons]
      have hp : (!(List.isEmpty ([] : List Char)) ||
          decide ((ls.map List.dropLast ++ [[]]).indexOf ([] : List Char) <
            (ls.map List.dropLast ++ [[]]).length - 1)) = false := by
        rw [hidx, List.length_append]
        simp
      rw [hp]
      simp
    rw [h1, h2, List.append_nil]
  rw [hfilter]
  exact map_dropLast_addNL ls h

/-! ## Claim C4: delete-then-insert round trip -/

/-- C4 counterexample: on the fully terminated two-line document
`["a\n", "\n"]` (a blank second line, no terminator edge case involved),
deleting lines `[1,2]` and re-inserting the concatenated deleted text after
line 0 yields THREE lines `["a\n","\n","\n"]`, not the original document:
the insert splitter's first-occurrence index test keeps the trailing empty
fragment because an earlier fragment is also empty. -/
theorem C4_counterexample :
    insertLines
        (deleteLines ["a\n".toList, "\n".toList] (1 : Int) (2 : Int))
        ((1 : Int) - 1)
        (List.flatten ((["a\n".toList, "\n".toList].drop (1 - 1)).take
          (2 + 1 - 1))) ≠
      ["a\n".toList, "\n".toList] := by
  decide

/-- C4 (amended): for `1 ≤ s ≤ e ≤ |D|`, deleting lines `[s,e]` and then
inserting the concatenated text of the original lines `D[s..e]` after line
`s-1` reconstructs `D`, provided every deleted line is a proper line —
nonempty payload, no interior newline, terminated by `'\n'`.  (Without that
proviso the law fails: a blank deleted line duplicates, and an unterminated
final line gains a terminator.) -/
theorem C4_delete_insert_roundtrip (doc : List (List Char)) (s e : Nat)
    (h1 : 1 ≤ s) (h2 : s ≤ e) (h3 : e ≤ doc.length)
    (hp : ∀ l ∈ (doc.drop (s - 1)).take (e + 1 - s), properLine l = true) :
    insertLines (deleteLines doc (s : Int) (e : Int)) ((s : Int) - 1)
      (List.flatten ((doc.drop (s - 1)).take (e + 1 - s))) = doc := by
  have hs : s - 1 ≤ doc.length := by omega
  have hseg : insertSplit (List.flatten ((doc.drop (s - 1)).take (e + 1 - s))) =
      (doc.drop (s - 1)).take (e + 1 - s) :=
    insertSplit_flatten_proper _ hp
  have hcast : ((s : Int) - 1) = ((s - 1 : Nat) : Int) := by omega
  rw [deleteLines_natCast doc s e h1, hcast, insertLines_natCast _ (s - 1) _]
  have hlen : (doc.take (s - 1)).length = s - 1 := List.length_take_of_le hs
  have htake : (doc.take (s - 1) ++ doc.drop e).take (s - 1) =
      doc.take (s - 1) := by
    rw [List.take_append_eq_append_take, hlen, Nat.sub_self, List.take_zero,
      List.append_nil, List.take_take, min_self]
  have hdrop : (doc.take (s - 1) ++ doc.drop e).drop (s - 1) = doc.drop e := by
    rw [List.drop_append_eq_append_drop, hlen, Nat.sub_self, List.drop_zero,
      List.drop_of_length_le (le_of_eq hlen), List.nil_append]
  rw [htake, hdrop, hseg]
  have hdd : ((doc.drop (s - 1)).take (e + 1 - s)) ++ doc.drop e =
      doc.drop (s - 1) := by
    have h4 : s - 1 + (e + 1 - s) = e := by omega
    calc ((doc.drop (s - 1)).take (e + 1 - s)) ++ doc.drop e
        = ((doc.drop (s - 1)).take (e + 1 - s)) ++
            (doc.drop (s - 1)).drop (e + 1 - s) := by
          rw [List.drop_drop, h4]
      _ = doc.drop (s - 1) := List.take_append_drop _ _
  rw [hdd, List.take_append_drop]

/-- C4 witness: the amended round trip applied to the concrete proper-lined
document `["ab\n","cd\n","e\n"]` with `s = 2`, `e = 3`. -/
theorem C4_witness :
    insertLines
        (deleteLines ["ab\n".toList, "cd\n".toList, "e\n".toList]
          (2 : Int) (3 : Int)) ((2 : Int) - 1)
        (List.flatten ((["ab\n".toList, "cd\n".toList, "e\n".toList].drop
          (2 - 1)).take (3 + 1 - 2))) =
      ["ab\n".toList, "cd\n".toList, "e\n".toList] :=
  C4_delete_insert_roundtrip ["ab\n".toList, "cd\n".toList, "e\n".toList] 2 3
    (by decide) (by decide) (by decide) (by decide)

/-! ## Claim C5: range validation -/

/-- C5 counterexample: `delete 0 0` (a start below 1) on the file
`"a\nb\n"` does not fail at all — the process exits 0 and the range is
silently reinterpreted through Python's negative slicing: `lines[:-1]`
duplicates the first line and the file GROWS to `"a\na\nb\n"`. -/
theorem C5_counterexample :
    (runMain ["p", "f", "delete", "0", "0"] [] ("a\nb\n".toList)).exitCode = 0 ∧
    (runMain ["p", "f", "delete", "0", "0"] [] ("a\nb\n".toList)).file =
      "a\na\nb\n".toList ∧
    "a\na\nb\n".toList ≠ "a\nb\n".toList := by
  decide

/-- C5 (amended): the code performs no range validation.  A start of 0 is
silently reinterpreted through Python negative slicing — `delete 0 e`
turns the kept prefix into `lines[:-1]`, i.e. all but the last line — and
only a line-number argument that fails integer conversion aborts the
process (exit 1, file untouched), via the `int()` failure rather than any
dedicated `InvalidRangeError`. -/
theorem C5_no_range_validation (doc : List (List Char)) (e : Int)
    (he : 0 ≤ e) :
    deleteLines doc 0 e = doc.dropLast ++ doc.drop e.toNat ∧
    (∀ (p f sa ea : String) (stdin content : List Char), pyInt sa = none →
      runMain [p, f, "delete", sa, ea] stdin content = ⟨content, [], 1⟩) := by
  constructor
  · rw [deleteLines]
    have h0 : (0 : Int) - 1 = -1 := by norm_num
    rw [h0]
    have h1 : pyTakeTo (-1) doc = doc.dropLast := by
      rw [pyTakeTo, pyIdx, if_pos (by norm_num)]
      have h2 : ((doc.length : Int) + -1).toNat = doc.length - 1 := by omega
      rw [h2, ← List.dropLast_eq_take]
    have h3 : pyDropFrom e doc = doc.drop e.toNat := by
      conv_lhs => rw [← Int.toNat_of_nonneg he]
      rw [pyDropFrom_ofNat]
    rw [h1, h3]
  · intro p f sa ea stdin content hsa
    rw [runMain, if_neg (by simp)]
    simp only [List.getD_cons_succ, List.getD_cons_zero]
    rw [if_neg (by decide), if_neg (by decide), if_neg (by decide),
      if_neg (by decide), if_pos trivial, runDeleteCmd]
    simp only [List.getD_cons_succ, List.getD_cons_zero]
    rw [hsa]

/-- C5 witness: the amended statement at `delete 0 0` on a two-line
document, and at the non-integer start `"x"`. -/
theorem C5_witness :
    deleteLines ["a\n".toList, "b\n".toList] 0 0 =
      (["a\n".toList, "b\n".toList]).dropLast ++
        (["a\n".toList, "b\n".toList]).drop ((0 : Int).toNat) ∧
    runMain ["p", "f", "delete", "x", "2"] [] ("a\nb\n".toList) =
      ⟨"a\nb\n".toList, [], 1⟩ := by
  have h := C5_no_range_validation ["a\n".toList, "b\n".toList] 0 (by norm_num)
  exact ⟨h.1, h.2 "p" "f" "x" "2" [] ("a\nb\n".toList) (by decide)⟩

/-! ## Claim C6: show never mutates the file -/

theorem runShow_file (argv : List String) (content : List Char) :
    (runShow argv content).file = content := by
  rw [runShow]
  split
  · rfl
  · split <;> rfl

theorem runMain_show (p f : String) (rest : List String)
    (stdin content : List Char) :
    runMain (p :: f :: "show" :: rest) stdin content =
      runShow (p :: f :: "show" :: rest) content := by
  rw [runMain, if_neg (by simp)]
  simp only [List.getD_cons_succ, List.getD_cons_zero]
  simp

/-- C6: with action `show` — whatever the range arguments, valid or not —
the file keeps its exact content, and running the same `show` twice (the
second run reading the file the first run left behind) produces identical
file content and identical console output both times. -/
theorem C6_show_no_mutation (p f : String) (rest : List String)
    (stdin content : List Char) :
    (runMain (p :: f :: "show" :: rest) stdin content).file = content ∧
    runMain (p :: f :: "show" :: rest) stdin
        ((runMain (p :: f :: "show" :: rest) stdin content).file) =
      runMain (p :: f :: "show" :: rest) stdin content := by
  have h1 : (runMain (p :: f :: "show" :: rest) stdin content).file = content := by
    rw [runMain_show]
    exact runShow_file _ _
  exact ⟨h1, by rw [h1]⟩

/-! ## Claim C7: append writes the raw text verbatim -/

/-- C7: `append` concatenates the supplied text (or, with no text argument,
the standard input) verbatim onto the prior file content — no splitting, no
re-reading, no validation of anything — and exits 0 after reporting. -/
theorem C7_append_verbatim (p f t : String) (stdin content : List Char) :
    runMain [p, f, "append", t] stdin content =
      ⟨content ++ t.toList, appendMsg f, 0⟩ ∧
    runMain [p, f, "append"] stdin content =
      ⟨content ++ stdin, appendMsg f, 0⟩ :=
  ⟨rfl, rfl⟩

/-! ## Claim C8: exit behavior -/

/-- C8 counterexample: an invocation with five arguments beyond the program
name — well above the usage threshold — still exits non-zero, because the
line-number argument `"x"` fails integer conversion; so it is not the case
that every invocation with at least two arguments exits 0. -/
theorem C8_counterexample :
    2 < (["p", "f", "replace", "x", "2", "t"] : List String).length ∧
    (runMain ["p", "f", "replace", "x", "2", "t"] [] ("a\n".toList)).exitCode
      ≠ 0 := by
  decide

/-- C8 (amended): with fewer than two arguments beyond the program name the
usage text is printed and the process exits 1.  A recognized action whose
line-number arguments parse as integers exits 0 after reporting the outcome
on standard output; a line-number argument that fails integer conversion
terminates the process with exit 1 and no output instead. -/
theorem C8_exit_behavior :
    (∀ (argv : List String) (stdin content : List Char), argv.length < 3 →
      runMain argv stdin content = ⟨content, usageOut, 1⟩) ∧
    (∀ (p f sa ea ta : String) (stdin content : List Char) (s3 e4 : Int),
      pyInt sa = some s3 → pyInt ea = some e4 →
      runMain [p, f, "replace", sa, ea, ta] stdin content =
        ⟨List.flatten (replaceLines (pyReadlines content) s3 e4 ta.toList),
          replaceMsg s3 e4 (replaceSplit ta.toList).length, 0⟩) ∧
    (∀ (p f aa ta : String) (stdin content : List Char) (a3 : Int),
      pyInt aa = some a3 →
      runMain [p, f, "insert", aa, ta] stdin content =
        ⟨List.flatten (insertLines (pyReadlines content) a3 ta.toList),
          insertMsg (insertSplit ta.toList).length a3, 0⟩) ∧
    (∀ (p f ta : String) (stdin content : List Char),
      runMain [p, f, "append", ta] stdin content =
        ⟨content ++ ta.toList, appendMsg f, 0⟩) ∧
    (∀ (p f sa ea : String) (stdin content : List Char) (s3 e4 : Int),
      pyInt sa = some s3 → pyInt ea = some e4 →
      runMain [p, f, "delete", sa, ea] stdin content =
        ⟨List.flatten (deleteLines (pyReadlines content) s3 e4),
          deleteMsg s3 e4, 0⟩) ∧
    (∀ (p f : String) (stdin content : List Char),
      (runMain [p, f, "show"] stdin content).exitCode = 0) ∧
    (∀ (p f sa ea ta : String) (stdin content : List Char), pyInt sa = none →
      runMain [p, f, "replace", sa, ea, ta] stdin content =
        ⟨content, [], 1⟩) := by
  refine ⟨fun argv stdin content h => ?_,
    fun p f sa ea ta stdin content s3 e4 hs hee => ?_,
    fun p f aa ta stdin content a3 ha => ?_,
    fun p f ta stdin content => rfl,
    fun p f sa ea stdin content s3 e4 hs hee => ?_,
    fun p f stdin content => ?_,
    fun p f sa ea ta stdin content hs => ?_⟩
  · rw [runMain, if_pos h]
  · rw [runMain, if_neg (by simp)]
    simp only [List.getD_cons_succ, List.getD_cons_zero]
    rw [if_neg (by decide), if_pos trivial, runReplaceCmd]
    simp only [List.getD_cons_succ, List.getD_cons_zero]
    rw [hs, hee]
    simp
  · rw [runMain, if_neg (by simp)]
    simp only [List.getD_cons_succ, List.getD_cons_zero]
    rw [if_neg (by decide), if_neg (by decide), if_pos trivial, runInsertCmd]
    simp only [List.getD_cons_succ, List.getD_cons_zero]
    rw [ha]
    simp
  · rw [runMain, if_neg (by simp)]
    simp only [List.getD_cons_succ, List.getD_cons_zero]
    rw [if_neg (by decide), if_neg (by decide), if_neg (by decide),
      if_neg (by decide), if_pos trivial, runDeleteCmd]
    simp only [List.getD_cons_succ, List.getD_cons_zero]
    rw [hs, hee]
  · rw [runMain, if_neg (by simp)]
    simp only [List.getD_cons_succ, List.getD_cons_zero]
    rw [if_pos trivial, runShow]
    simp
  · rw [runMain, if_neg (by simp)]
    simp only [List.getD_cons_succ, List.getD_cons_zero]
    rw [if_neg (by decide), if_pos trivial, runReplaceCmd]
    simp only [List.getD_cons_succ, List.getD_cons_zero]
    rw [hs]

/-- C8 witness: the delete clause of the exit-behavior contract at a fully
concrete invocation with parseable bounds. -/
theorem C8_witness :
    runMain ["p", "f", "delete", "1", "1"] [] ("a\nb\n".toList) =
      ⟨List.flatten (deleteLines (pyReadlines ("a\nb\n".toList)) 1 1),
        deleteMsg 1 1, 0⟩ :=
  C8_exit_behavior.2.2.2.2.1 "p" "f" "1" "1" [] ("a\nb\n".toList) 1 1
    (by decide) (by decide)

/-! ## Claim C10: unrecognized actions are a silent no-op -/

/-- C10: any action string other than the five recognized ones, given at
least two arguments beyond the program name, makes `main` fall through every
branch: nothing is printed, the file is untouched, and the process exits 0. -/
theorem C10_unknown_action (p f a : String) (rest : List String)
    (stdin content : List Char) (h1 : a ≠ "show") (h2 : a ≠ "replace")
    (h3 : a ≠ "insert") (h4 : a ≠ "append") (h5 : a ≠ "delete") :
    runMain (p :: f :: a :: rest) stdin content = ⟨content, [], 0⟩ := by
  rw [runMain, if_neg (by simp)]
  simp only [List.getD_cons_succ, List.getD_cons_zero]
  rw [if_neg h1, if_neg h2, if_neg h3, if_neg h4, if_neg h5]

/-- C10 witness: the unrecognized action `"frobnicate"`. -/
theorem C10_witness :
    runMain ["p", "f", "frobnicate"] [] ("a\n".toList) =
      ⟨"a\n".toList, [], 0⟩ :=
  C10_unknown_action "p" "f" "frobnicate" [] [] ("a\n".toList)
    (by decide) (by decide) (by decide) (by decide) (by decide)

end EditFile
